import Mathlib

/-!
Verification of the tausch templating-expression interpreter
(`src/tausch.rs`): a shallow embedding of its tokenizer and
recursive-descent evaluator, together with theorems about the
claims of the specification.

Modelling conventions:
* Rust `char::is_alphanumeric` / `char::is_whitespace` are modelled by
  `Char.isAlphanum` / `Char.isWhitespace` (the ASCII fragment, which is
  all the claims exercise).
* The `HashMap<String, VariableValue>` environment is modelled by a
  function `String → Option VariableValue`; `variables.get(k)` becomes
  plain application, which is exactly the only operation the code uses.
* Rust iterators over the token slice are modelled by passing the
  remaining `List Token` explicitly.
* `Result<T, TauschError>` is modelled by `Except TauschError T`.
-/

set_option autoImplicit false

/-- Models the `VariableValue` enum: `Bool(bool) | Str(String) | Empty`. -/
inductive VariableValue where
  | Bool (b : Bool)
  | Str (s : String)
  | Empty
  deriving DecidableEq

/-- Models the `TokenType` enum:
`Variable | IfStart | IfNegate | IfEnd | IfElse`. -/
inductive TokenType where
  | Variable
  | IfStart
  | IfNegate
  | IfEnd
  | IfElse
  deriving DecidableEq

/-- Models `std::any::TypeId`: an identifier of a Rust *type* (not of a
value).  `Any::type_id` is implemented per concrete type, so calling it on
any value of static type `TokenType` yields the one identifier
`TypeId::of::<TokenType>()`, regardless of which enum variant the value
is.  Distinct types have distinct identifiers, modelled here by distinct
constructors for the types the program mentions. -/
inductive TypeId where
  | ofTokenType
  | ofBool
  | ofString
  deriving DecidableEq, BEq

/-- Models `self.type_id()` for `self: &TokenType` (via the `Any` trait):
the receiver's static type is `TokenType`, so the result is
`TypeId::of::<TokenType>()` whatever the variant is. -/
def TokenType.type_id (_ : TokenType) : TypeId :=
  TypeId.ofTokenType

/-- Models `impl PartialEq for TokenType`:
`self.type_id() == other.type_id()`. -/
def TokenType.eq (a b : TokenType) : Bool :=
  a.type_id == b.type_id

/-- Models the `Token` struct: a `typ : TokenType` and a `label : String`. -/
structure Token where
  typ : TokenType
  label : String
  deriving DecidableEq

/-- Models `impl PartialEq for Token`:
`self.label == other.label && self.typ.type_id() == other.typ.type_id()`. -/
def Token.eq (a b : Token) : Bool :=
  a.label == b.label && a.typ.type_id == b.typ.type_id

/-- Models the `TauschError` enum: `Tokenizer(String) | Parser(String)`. -/
inductive TauschError where
  | Tokenizer (msg : String)
  | Parser (msg : String)
  deriving DecidableEq

/-- Models the `reserved_toks` vector built in `Tokenizer::new`. -/
def reserved_tokens : List Token :=
  [⟨TokenType.IfStart, "if"⟩,
   ⟨TokenType.IfEnd, ";"⟩,
   ⟨TokenType.IfElse, ":"⟩,
   ⟨TokenType.IfNegate, "!"⟩]

/-- Models `Tokenizer::is_allowed_var_name`:
`c.is_alphanumeric() || c == '_'`. -/
def is_allowed_var_name (c : Char) : Bool :=
  c.isAlphanum || c == '_'

/-- Models `Tokenizer::is_allowed_token`: an allowed variable-name
character, or a character occurring in some reserved token's label
(Rust's `tok.label.contains(c)`, membership of the character in the
label, taken here on the label's character list). -/
def is_allowed_token (c : Char) : Bool :=
  is_allowed_var_name c
    || (reserved_tokens.find? (fun tok => tok.label.data.contains c)).isSome

/-- Models the token emitted after a maximal run of allowed characters
(the body after the inner `while` of `Tokenizer::tokenize`): the run's
exact text is looked up in the reserved table; a hit is pushed as-is,
otherwise a `Variable` token carrying the text is pushed. -/
def run_token (acc : List Char) : Token :=
  match reserved_tokens.find? (fun tok => tok.label == String.mk acc) with
  | some tok => tok
  | none => ⟨TokenType.Variable, String.mk acc⟩

/-- Models the scanning loop of `Tokenizer::tokenize`.  The `Option`
argument is the in-progress run: `none` when no run is open, `some acc`
when the characters `acc` have been consumed into the current maximal
run (in the Rust code the run is consumed at once through `peek`; here
it is threaded one character at a time, emitting `run_token acc` exactly
when the run is terminated by whitespace or by the end of input, which
produces the same token sequence).  A character that is neither an
allowed token character nor whitespace aborts the call with
`TauschError::Tokenizer` carrying that character. -/
def tokenize_go : Option (List Char) → List Char → Except TauschError (List Token)
  | none, [] => Except.ok []
  | some acc, [] => Except.ok [run_token acc]
  | none, c :: cs =>
    if is_allowed_token c then
      tokenize_go (some [c]) cs
    else if c.isWhitespace then
      tokenize_go none cs
    else
      Except.error (TauschError.Tokenizer ("Unknown token: '" ++ c.toString ++ "'"))
  | some acc, c :: cs =>
    if is_allowed_token c then
      tokenize_go (some (acc ++ [c])) cs
    else if c.isWhitespace then
      (tokenize_go none cs).map (fun toks => run_token acc :: toks)
    else
      Except.error (TauschError.Tokenizer ("Unknown token: '" ++ c.toString ++ "'"))

/-- Models `Tokenizer::tokenize` on the characters of the input line. -/
def tokenize (input : String) : Except TauschError (List Token) :=
  tokenize_go none input.data

/-- Models the read-only environment, `HashMap<String, VariableValue>`:
the code only ever calls `variables.get(k)`, modelled as application. -/
def Env : Type :=
  String → Option VariableValue

/-- Models `expect_token`: take the next token from the iterator; if its
type compares equal (under `TokenType`'s `PartialEq`) to the expected
one, yield it together with the advanced iterator, otherwise (or when
the iterator is exhausted) fail with `Parser(on_fail)`. -/
def expect_token (iterator : List Token) (typ : TokenType) (on_fail : String) :
    Except TauschError (Token × List Token) :=
  match iterator with
  | tok :: rest =>
    if TokenType.eq tok.typ typ then
      Except.ok (tok, rest)
    else
      Except.error (TauschError.Parser on_fail)
  | [] => Except.error (TauschError.Parser on_fail)

/-- Models `parse_if`, entered after the leading `IfStart` token has been
consumed.  Mirrors the Rust control flow step by step: condition token,
existence and boolean checks on the condition variable, `;`, the
"then"-branch token and its existence check; then the Rust code wraps
the iterator in a fresh `Peekable` and peeks — when nothing remains the
statement is complete, otherwise the peeked token (which is consumed
from the underlying iterator and lost when the peekable wrapper is
dropped) is compared against `IfElse`, after which the "else"-branch
token is read and resolved. -/
def parse_if (vars : Env) (iterator : List Token) :
    Except TauschError VariableValue :=
  match expect_token iterator TokenType.Variable
      "Expected variable name after 'if'!" with
  | Except.error e => Except.error e
  | Except.ok (tok_condition, it1) =>
    match vars tok_condition.label with
    | none =>
      Except.error (TauschError.Parser
        ("Variable '" ++ tok_condition.label ++ "' does not exist!"))
    | some var_condition =>
      match var_condition with
      | VariableValue.Bool val_condition =>
        match expect_token it1 TokenType.IfEnd
            "Expected ';' after variable name inside of 'if'!" with
        | Except.error e => Except.error e
        | Except.ok (_, it2) =>
          match expect_token it2 TokenType.Variable
              "Expected variable name inside of 'if'-branch of if-statement." with
          | Except.error e => Except.error e
          | Except.ok (tok_on_true, it3) =>
            match vars tok_on_true.label with
            | none =>
              Except.error (TauschError.Parser
                ("Variable '" ++ tok_on_true.label ++ "' does not exist!"))
            | some val_on_true =>
              match it3 with
              | [] =>
                Except.ok (if val_condition then val_on_true else VariableValue.Empty)
              | tok_else :: it4 =>
                if !(TokenType.eq tok_else.typ TokenType.IfElse) then
                  Except.error (TauschError.Parser
                    "Expected ':' to start an 'else'-branch for the if-statement")
                else
                  match expect_token it4 TokenType.Variable
                      "Expected variable name inside of 'if'-branch of if-statement." with
                  | Except.error e => Except.error e
                  | Except.ok (tok_on_else, _) =>
                    match vars tok_on_else.label with
                    | none =>
                      Except.error (TauschError.Parser
                        ("Variable '" ++ tok_on_else.label ++ "' does not exist!"))
                    | some val_on_else =>
                      Except.ok
                        (if val_condition then val_on_true else val_on_else)
      | _ =>
        Except.error (TauschError.Parser
          ("Variable '" ++ tok_condition.label ++ "' is not a bool!"))

/-- Models `eval`: tokenize the input, then dispatch on the first token's
variant (a genuine Rust `match`, not the `PartialEq` comparison): a
`Variable` is looked up directly, `IfStart` enters `parse_if`, any other
variant is the generic parser error, and an empty token sequence is the
"No tokens" error. -/
def eval (vars : Env) (input : String) : Except TauschError VariableValue :=
  match tokenize input with
  | Except.error e => Except.error e
  | Except.ok tokens =>
    match tokens with
    | tok :: iter =>
      match tok.typ with
      | TokenType.Variable =>
        match vars tok.label with
        | some var => Except.ok var
        | none =>
          Except.error (TauschError.Parser
            ("Variable '" ++ tok.label ++ "' not found!"))
      | TokenType.IfStart => parse_if vars iter
      | _ =>
        Except.error (TauschError.Parser
          "Expected start of an if-statement or variable name!")
    | [] => Except.error (TauschError.Parser "No tokens")

/-- The environment the repository's `main` builds and its tests reuse. -/
def main_env : Env := fun k =>
  if k = "hello" then some (VariableValue.Str "42")
  else if k = "world" then some (VariableValue.Str "69")
  else if k = "cond" then some (VariableValue.Bool true)
  else if k = "ncond" then some (VariableValue.Bool false)
  else none

/-- A word: a non-empty string all of whose characters are allowed token
characters, i.e. a single maximal run for the scanner. -/
def Word (s : String) : Prop :=
  s.data ≠ [] ∧ ∀ c ∈ s.data, is_allowed_token c = true

instance : DecidablePred Word := fun s => by
  unfold Word; infer_instance

/-- An environment binding only the reserved word `if` (used for C6). -/
def if_env : Env := fun k =>
  if k = "if" then some (VariableValue.Str "42") else none

/-- An environment binding the reserved spelling `;` to a boolean and
`hello` to a string (used for C2). -/
def semi_env : Env := fun k =>
  if k = ";" then some (VariableValue.Bool true)
  else if k = "hello" then some (VariableValue.Str "42")
  else none

/-- The empty environment. -/
def empty_env : Env := fun _ => none

example : tokenize "ifx" = Except.ok [⟨TokenType.Variable, "ifx"⟩] := by rfl

example : eval main_env "hello" = Except.ok (VariableValue.Str "42") := by rfl

example : eval main_env "if cond ; hello" = Except.ok (VariableValue.Str "42") := by rfl

example : eval main_env "if cond ; hello : world" =
    Except.ok (VariableValue.Str "42") := by rfl

example : eval main_env "if ncond ; hello : world" =
    Except.ok (VariableValue.Str "69") := by rfl

example : eval main_env "if ncond ; hello" = Except.ok VariableValue.Empty := by rfl

example : tokenize "if x ; y" =
    Except.ok [⟨TokenType.IfStart, "if"⟩, ⟨TokenType.Variable, "x"⟩,
      ⟨TokenType.IfEnd, ";"⟩, ⟨TokenType.Variable, "y"⟩] := by rfl

example : tokenize "a+b" =
    Except.error (TauschError.Tokenizer "Unknown token: '+'") := by rfl

/-! ### Basic lemmas about the token-type comparison and `expect_token` -/

/-- The `PartialEq` on `TokenType` compares `TypeId`s of values that all
have the one static type `TokenType`, so it is identically `true`. -/
theorem TokenType.eq_always (a b : TokenType) : TokenType.eq a b = true := rfl

theorem expect_token_cons (tok : Token) (rest : List Token) (typ : TokenType)
    (msg : String) : expect_token (tok :: rest) typ msg = Except.ok (tok, rest) := rfl

theorem expect_token_nil (typ : TokenType) (msg : String) :
    expect_token [] typ msg = Except.error (TauschError.Parser msg) := rfl

/-! ### Lemmas about the tokenizer -/

theorem run_token_label (acc : List Char) : (run_token acc).label = String.mk acc := by
  unfold run_token
  cases h : reserved_tokens.find? (fun tok => tok.label == String.mk acc) with
  | none => rfl
  | some tok =>
    have := List.find?_some h
    simpa using eq_of_beq (by simpa using this)

theorem tokenize_go_extend (w : List Char) (acc cs : List Char)
    (hw : ∀ c ∈ w, is_allowed_token c = true) :
    tokenize_go (some acc) (w ++ cs) = tokenize_go (some (acc ++ w)) cs := by
  induction w generalizing acc with
  | nil => simp
  | cons c w' ih =>
    have hc : is_allowed_token c = true := hw c (by simp)
    have hw' : ∀ d ∈ w', is_allowed_token d = true := fun d hd => hw d (by simp [hd])
    calc tokenize_go (some acc) ((c :: w') ++ cs)
        = tokenize_go (some (acc ++ [c])) (w' ++ cs) := by
          simp [tokenize_go, hc]
      _ = tokenize_go (some ((acc ++ [c]) ++ w')) cs := ih (acc ++ [c]) hw'
      _ = tokenize_go (some (acc ++ (c :: w'))) cs := by simp

/-- A good run at the very end of the input yields exactly its token. -/
theorem tokenize_go_run_end (w : List Char) (hne : w ≠ [])
    (hw : ∀ c ∈ w, is_allowed_token c = true) :
    tokenize_go none w = Except.ok [run_token w] := by
  cases w with
  | nil => exact absurd rfl hne
  | cons c w' =>
    have hc : is_allowed_token c = true := hw c (by simp)
    have hw' : ∀ d ∈ w', is_allowed_token d = true := fun d hd => hw d (by simp [hd])
    calc tokenize_go none (c :: w')
        = tokenize_go (some [c]) w' := by simp [tokenize_go, hc]
      _ = tokenize_go (some [c]) (w' ++ []) := by simp
      _ = tokenize_go (some ([c] ++ w')) [] := tokenize_go_extend w' [c] [] hw'
      _ = Except.ok [run_token (c :: w')] := rfl

/-- A good run terminated by a space emits its token and scanning
resumes after the space. -/
theorem tokenize_go_run_space (w : List Char) (rest : List Char) (hne : w ≠ [])
    (hw : ∀ c ∈ w, is_allowed_token c = true) :
    tokenize_go none (w ++ ' ' :: rest)
      = (tokenize_go none rest).map (fun toks => run_token w :: toks) := by
  cases w with
  | nil => exact absurd rfl hne
  | cons c w' =>
    have hc : is_allowed_token c = true := hw c (by simp)
    have hw' : ∀ d ∈ w', is_allowed_token d = true := fun d hd => hw d (by simp [hd])
    calc tokenize_go none ((c :: w') ++ ' ' :: rest)
        = tokenize_go (some [c]) (w' ++ ' ' :: rest) := by simp [tokenize_go, hc]
      _ = tokenize_go (some ([c] ++ w')) (' ' :: rest) :=
          tokenize_go_extend w' [c] (' ' :: rest) hw'
      _ = (tokenize_go none rest).map (fun toks => run_token (c :: w') :: toks) := by
          simp [tokenize_go, is_allowed_token, is_allowed_var_name, reserved_tokens]

theorem tokenize_if_line (c t : String) (hc : Word c) (ht : Word t) :
    tokenize ("if " ++ c ++ " ; " ++ t)
      = Except.ok [⟨TokenType.IfStart, "if"⟩, run_token c.data,
          ⟨TokenType.IfEnd, ";"⟩, run_token t.data] := by
  have hr1 : run_token ['i', 'f'] = ⟨TokenType.IfStart, "if"⟩ := rfl
  have hr2 : run_token [';'] = ⟨TokenType.IfEnd, ";"⟩ := rfl
  have hd : ("if " ++ c ++ " ; " ++ t).data
      = ['i', 'f'] ++ ' ' :: (c.data ++ ' ' :: ([';'] ++ ' ' :: t.data)) := by
    simp [String.data_append]
  rw [tokenize, hd,
    tokenize_go_run_space ['i', 'f'] _ (by simp) (by decide),
    tokenize_go_run_space c.data _ hc.1 hc.2,
    tokenize_go_run_space [';'] _ (by simp) (by decide),
    tokenize_go_run_end t.data ht.1 ht.2]
  simp [hr1, hr2, Except.map]

theorem tokenize_if_else_line (c t e : String) (hc : Word c) (ht : Word t)
    (he : Word e) :
    tokenize ("if " ++ c ++ " ; " ++ t ++ " : " ++ e)
      = Except.ok [⟨TokenType.IfStart, "if"⟩, run_token c.data,
          ⟨TokenType.IfEnd, ";"⟩, run_token t.data,
          ⟨TokenType.IfElse, ":"⟩, run_token e.data] := by
  have hr1 : run_token ['i', 'f'] = ⟨TokenType.IfStart, "if"⟩ := rfl
  have hr2 : run_token [';'] = ⟨TokenType.IfEnd, ";"⟩ := rfl
  have hr3 : run_token [':'] = ⟨TokenType.IfElse, ":"⟩ := rfl
  have hd : ("if " ++ c ++ " ; " ++ t ++ " : " ++ e).data
      = ['i', 'f'] ++ ' ' :: (c.data ++ ' ' :: ([';'] ++ ' '
          :: (t.data ++ ' ' :: ([':'] ++ ' ' :: e.data)))) := by
    simp [String.data_append]
  rw [tokenize, hd,
    tokenize_go_run_space ['i', 'f'] _ (by simp) (by decide),
    tokenize_go_run_space c.data _ hc.1 hc.2,
    tokenize_go_run_space [';'] _ (by simp) (by decide),
    tokenize_go_run_space t.data _ ht.1 ht.2,
    tokenize_go_run_space [':'] _ (by simp) (by decide),
    tokenize_go_run_end e.data he.1 he.2]
  simp [hr1, hr2, hr3, Except.map]

theorem tokenize_if_else_line_app (c t e rest : String) (hc : Word c)
    (ht : Word t) (he : Word e) :
    tokenize ("if " ++ c ++ " ; " ++ t ++ " : " ++ e ++ " " ++ rest)
      = (tokenize rest).map (fun toks =>
          ⟨TokenType.IfStart, "if"⟩ :: run_token c.data ::
          ⟨TokenType.IfEnd, ";"⟩ :: run_token t.data ::
          ⟨TokenType.IfElse, ":"⟩ :: run_token e.data :: toks) := by
  have hr1 : run_token ['i', 'f'] = ⟨TokenType.IfStart, "if"⟩ := rfl
  have hr2 : run_token [';'] = ⟨TokenType.IfEnd, ";"⟩ := rfl
  have hr3 : run_token [':'] = ⟨TokenType.IfElse, ":"⟩ := rfl
  have hd : ("if " ++ c ++ " ; " ++ t ++ " : " ++ e ++ " " ++ rest).data
      = ['i', 'f'] ++ ' ' :: (c.data ++ ' ' :: ([';'] ++ ' '
          :: (t.data ++ ' ' :: ([':'] ++ ' ' :: (e.data ++ ' ' :: rest.data))))) := by
    simp [String.data_append]
  rw [tokenize, hd,
    tokenize_go_run_space ['i', 'f'] _ (by simp) (by decide),
    tokenize_go_run_space c.data _ hc.1 hc.2,
    tokenize_go_run_space [';'] _ (by simp) (by decide),
    tokenize_go_run_space t.data _ ht.1 ht.2,
    tokenize_go_run_space [':'] _ (by simp) (by decide),
    tokenize_go_run_space e.data _ he.1 he.2]
  cases h : tokenize rest with
  | error err => simp [tokenize] at h; simp [h, Except.map]
  | ok toks => simp [tokenize] at h; simp [h, Except.map, hr1, hr2, hr3]

/-- If every character of the remaining input is an allowed token
character or whitespace, the scan succeeds from any state. -/
theorem tokenize_go_ok_of_good (l : List Char) (st : Option (List Char))
    (h : ∀ c ∈ l, is_allowed_token c = true ∨ c.isWhitespace = true) :
    ∃ toks, tokenize_go st l = Except.ok toks := by
  induction l generalizing st with
  | nil =>
    cases st with
    | none => exact ⟨[], rfl⟩
    | some acc => exact ⟨[run_token acc], rfl⟩
  | cons c cs ih =>
    have hcs : ∀ d ∈ cs, is_allowed_token d = true ∨ d.isWhitespace = true :=
      fun d hd => h d (by simp [hd])
    rcases h c (by simp) with hc | hc
    · cases st with
      | none =>
        obtain ⟨toks, htoks⟩ := ih (some [c]) hcs
        exact ⟨toks, by simp [tokenize_go, hc, htoks]⟩
      | some acc =>
        obtain ⟨toks, htoks⟩ := ih (some (acc ++ [c])) hcs
        exact ⟨toks, by simp [tokenize_go, hc, htoks]⟩
    · cases st with
      | none =>
        obtain ⟨toks, htoks⟩ := ih none hcs
        by_cases hall : is_allowed_token c = true
        · obtain ⟨toks', htoks'⟩ := ih (some [c]) hcs
          exact ⟨toks', by simp [tokenize_go, hall, htoks']⟩
        · exact ⟨toks, by simp [tokenize_go, hall, hc, htoks]⟩
      | some acc =>
        obtain ⟨toks, htoks⟩ := ih none hcs
        by_cases hall : is_allowed_token c = true
        · obtain ⟨toks', htoks'⟩ := ih (some (acc ++ [c])) hcs
          exact ⟨toks', by simp [tokenize_go, hall, htoks']⟩
        · exact ⟨run_token acc :: toks,
            by simp [tokenize_go, hall, hc, htoks, Except.map]⟩

/-- If the remaining input contains a character that is neither an
allowed token character nor whitespace, the scan from any state fails
with the tokenizer error naming the first such character. -/
theorem tokenize_go_error_of_bad (l : List Char) (st : Option (List Char))
    (c : Char)
    (h : l.find? (fun d => !(is_allowed_token d || d.isWhitespace)) = some c) :
    tokenize_go st l
      = Except.error (TauschError.Tokenizer ("Unknown token: '" ++ c.toString ++ "'")) := by
  induction l generalizing st with
  | nil => simp at h
  | cons d ds ih =>
    by_cases hbad : (!(is_allowed_token d || d.isWhitespace)) = true
    · rw [List.find?_cons, hbad] at h
      have hdc : d = c := by simpa using h
      subst hdc
      have hboth : is_allowed_token d = false ∧ d.isWhitespace = false :=
        Bool.or_eq_false_iff.mp (by simpa using hbad)
      cases st with
      | none => simp [tokenize_go, hboth.1, hboth.2]
      | some acc => simp [tokenize_go, hboth.1, hboth.2]
    · have hb : (!(is_allowed_token d || d.isWhitespace)) = false := by
        simpa using hbad
      rw [List.find?_cons, hb] at h
      simp only [] at h
      have himp : is_allowed_token d = false → d.isWhitespace = true := by
        simpa using hb
      cases st with
      | none =>
        by_cases hall : is_allowed_token d = true
        · simp only [tokenize_go, hall, if_pos]
          exact ih (some [d]) h
        · have hws : d.isWhitespace = true := himp (Bool.eq_false_iff.mpr hall)
          simp only [tokenize_go, hall, hws, Bool.false_eq_true, not_false_eq_true,
            if_true, if_false]
          exact ih none h
      | some acc =>
        by_cases hall : is_allowed_token d = true
        · simp only [tokenize_go, hall, if_pos]
          exact ih (some (acc ++ [d])) h
        · have hws : d.isWhitespace = true := himp (Bool.eq_false_iff.mpr hall)
          simp [tokenize_go, hall, hws, ih none h, Except.map]

theorem run_token_label_ne (acc : List Char) (h : acc ≠ []) :
    (run_token acc).label ≠ "" := by
  rw [run_token_label]
  intro contra
  exact h (congrArg String.data contra)

/-- Every token emitted by the scanner comes from a non-empty run, so
its label is non-empty (whatever its kind). -/
theorem tokenize_go_label_ne (l : List Char) (st : Option (List Char))
    (hst : ∀ acc, st = some acc → acc ≠ []) (toks : List Token)
    (h : tokenize_go st l = Except.ok toks) :
    ∀ t ∈ toks, t.label ≠ "" := by
  induction l generalizing st toks with
  | nil =>
    cases st with
    | none =>
      have : toks = [] := by simpa [tokenize_go] using h.symm
      simp [this]
    | some acc =>
      have : toks = [run_token acc] := by simpa [tokenize_go] using h.symm
      subst this
      intro t ht
      have : t = run_token acc := by simpa using ht
      subst this
      exact run_token_label_ne acc (hst acc rfl)
  | cons c cs ih =>
    by_cases hall : is_allowed_token c = true
    · cases st with
      | none =>
        rw [show tokenize_go none (c :: cs) = tokenize_go (some [c]) cs by
          simp [tokenize_go, hall]] at h
        exact ih (some [c]) (by intro acc hacc; cases hacc; simp) toks h
      | some acc =>
        rw [show tokenize_go (some acc) (c :: cs)
            = tokenize_go (some (acc ++ [c])) cs by simp [tokenize_go, hall]] at h
        exact ih (some (acc ++ [c])) (by intro a ha; cases ha; simp) toks h
    · by_cases hws : c.isWhitespace = true
      · cases st with
        | none =>
          rw [show tokenize_go none (c :: cs) = tokenize_go none cs by
            simp [tokenize_go, hall, hws]] at h
          exact ih none (by intro acc hacc; cases hacc) toks h
        | some acc =>
          rw [show tokenize_go (some acc) (c :: cs)
              = (tokenize_go none cs).map (fun ts => run_token acc :: ts) by
            simp [tokenize_go, hall, hws]] at h
          cases hrec : tokenize_go none cs with
          | error e => rw [hrec] at h; simp [Except.map] at h
          | ok ts =>
            rw [hrec] at h
            simp [Except.map] at h
            subst h
            intro t ht
            rcases List.mem_cons.mp ht with rfl | hmem
            · exact run_token_label_ne acc (hst acc rfl)
            · exact ih none (by intro a ha; cases ha) ts hrec t hmem
      · cases st with
        | none => simp [tokenize_go, hall, hws] at h
        | some acc => simp [tokenize_go, hall, hws] at h

/-- C5: for every environment binding `c` to a Boolean and `t` to a value
`v` (with `c`, `t` single scanner words), the else-less conditional
`evaluate(env, "if c ; t")` returns `Ok(v)` when `c` is `Boolean(true)`
and `Ok(Empty)` when `c` is `Boolean(false)`. -/
theorem c5_if_without_else (env : Env) (c t : String) (b : Bool)
    (v : VariableValue) (hc : Word c) (ht : Word t)
    (henvc : env c = some (VariableValue.Bool b)) (henvt : env t = some v) :
    eval env ("if " ++ c ++ " ; " ++ t)
      = Except.ok (if b then v else VariableValue.Empty) := by
  have htok := tokenize_if_line c t hc ht
  have hlc : (run_token c.data).label = c := by rw [run_token_label]
  have hlt : (run_token t.data).label = t := by rw [run_token_label]
  simp [eval, htok, parse_if, expect_token, TokenType.eq_always, hlc, hlt,
    henvc, henvt]

theorem c5_if_without_else_witness :
    eval main_env "if cond ; hello" = Except.ok (VariableValue.Str "42") :=
  c5_if_without_else main_env "cond" "hello" true (VariableValue.Str "42")
    (by decide) (by decide) rfl rfl

/-- C4: for every environment binding `c` to a Boolean, `t` to `vt` and
`e` to `ve` (with `c`, `t`, `e` single scanner words, `vt`, `ve` of any
type), `evaluate(env, "if c ; t : e")` returns `Ok(vt)` when `c` is true
and `Ok(ve)` when `c` is false.  The spec's concrete scenario is the
witness below. -/
theorem c4_if_with_else (env : Env) (c t e : String) (b : Bool)
    (vt ve : VariableValue) (hc : Word c) (ht : Word t) (he : Word e)
    (henvc : env c = some (VariableValue.Bool b)) (henvt : env t = some vt)
    (henve : env e = some ve) :
    eval env ("if " ++ c ++ " ; " ++ t ++ " : " ++ e)
      = Except.ok (if b then vt else ve) := by
  have htok := tokenize_if_else_line c t e hc ht he
  have hlc : (run_token c.data).label = c := by rw [run_token_label]
  have hlt : (run_token t.data).label = t := by rw [run_token_label]
  have hle : (run_token e.data).label = e := by rw [run_token_label]
  simp [eval, htok, parse_if, expect_token, TokenType.eq_always, hlc, hlt, hle,
    henvc, henvt, henve]

theorem c4_if_with_else_witness :
    eval main_env "if ncond ; hello : world" = Except.ok (VariableValue.Str "69") :=
  c4_if_with_else main_env "ncond" "hello" "world" false
    (VariableValue.Str "42") (VariableValue.Str "69")
    (by decide) (by decide) (by decide) rfl rfl rfl

/-- C10: appending further tokenizable text after the else-branch name of
a complete, successfully evaluating conditional does not change the
result: evaluation returns right after resolving the else-branch name
and never examines the remaining tokens. -/
theorem c10_trailing_tokens_ignored (env : Env) (c t e rest : String)
    (b : Bool) (vt ve : VariableValue) (hc : Word c) (ht : Word t)
    (he : Word e)
    (hrest : ∀ ch ∈ rest.data, is_allowed_token ch = true ∨ ch.isWhitespace = true)
    (henvc : env c = some (VariableValue.Bool b)) (henvt : env t = some vt)
    (henve : env e = some ve) :
    eval env ("if " ++ c ++ " ; " ++ t ++ " : " ++ e ++ " " ++ rest)
        = eval env ("if " ++ c ++ " ; " ++ t ++ " : " ++ e)
      ∧ eval env ("if " ++ c ++ " ; " ++ t ++ " : " ++ e)
        = Except.ok (if b then vt else ve) := by
  have hlc : (run_token c.data).label = c := by rw [run_token_label]
  have hlt : (run_token t.data).label = t := by rw [run_token_label]
  have hle : (run_token e.data).label = e := by rw [run_token_label]
  have hshort : eval env ("if " ++ c ++ " ; " ++ t ++ " : " ++ e)
      = Except.ok (if b then vt else ve) := by
    have htok := tokenize_if_else_line c t e hc ht he
    simp [eval, htok, parse_if, expect_token, TokenType.eq_always, hlc, hlt, hle,
      henvc, henvt, henve]
  refine ⟨?_, hshort⟩
  obtain ⟨restToks, hrt⟩ := tokenize_go_ok_of_good rest.data none hrest
  have hrt' : tokenize rest = Except.ok restToks := hrt
  have htok := tokenize_if_else_line_app c t e rest hc ht he
  rw [hrt', Except.map] at htok
  rw [hshort]
  simp [eval, htok, parse_if, expect_token, TokenType.eq_always, hlc, hlt, hle,
    henvc, henvt, henve]

theorem c10_trailing_tokens_ignored_witness :
    eval main_env "if ncond ; hello : world junk"
        = eval main_env "if ncond ; hello : world"
      ∧ eval main_env "if ncond ; hello : world"
        = Except.ok (VariableValue.Str "69") :=
  c10_trailing_tokens_ignored main_env "ncond" "hello" "world" "junk" false
    (VariableValue.Str "42") (VariableValue.Str "69")
    (by decide) (by decide) (by decide) (by decide) rfl rfl rfl

theorem run_token_not_reserved (w : List Char)
    (h : ∀ tok ∈ reserved_tokens, tok.label ≠ String.mk w) :
    run_token w = ⟨TokenType.Variable, String.mk w⟩ := by
  unfold run_token
  rw [List.find?_eq_none.mpr]
  intro tok htok
  simpa using h tok htok

/-- C1 (code bug): the two tokens `IfStart "x"` and `Variable "x"` have
equal labels but different kinds, yet the implemented `PartialEq`
compares them equal, because `type_id()` on any two `TokenType` values
yields the same `TypeId` (that of the type `TokenType` itself); likewise
`TokenType`'s own `PartialEq` equates the distinct variants `IfStart`
and `Variable`. -/
theorem c1_token_eq_ignores_kind :
    Token.eq ⟨TokenType.IfStart, "x"⟩ ⟨TokenType.Variable, "x"⟩ = true
    ∧ TokenType.eq TokenType.IfStart TokenType.Variable = true := by
  exact ⟨rfl, rfl⟩

/-- C2 (code bug): a wrong-kind token right after `IfStart` is not
rejected with the expectation-describing parser error: `expect_token`'s
kind test is vacuous, so in `if ; ; hello` the `;` token is accepted as
the condition name.  With `;` bound to a boolean the whole conditional
even evaluates successfully, and with an empty environment the failure
is the missing-variable error for `;`, not the expectation error. -/
theorem c2_wrong_kind_not_rejected :
    eval semi_env "if ; ; hello" = Except.ok (VariableValue.Str "42")
    ∧ eval empty_env "if ; ; hello"
        = Except.error (TauschError.Parser "Variable ';' does not exist!") := by
  exact ⟨rfl, rfl⟩

/-- C3 (code bug): a trailing token that is not `IfElse` after a
complete `IfStart Variable IfEnd Variable` prefix is not rejected: the
vacuous kind test accepts it as the else-marker.  With two trailing
`Variable` tokens the second is resolved as the else branch and the
call returns `Ok`; with one trailing token the failure is the
missing-else-name message, not the expected-`:` parser error. -/
theorem c3_trailing_non_else_accepted :
    eval main_env "if ncond ; hello world world" = Except.ok (VariableValue.Str "69")
    ∧ eval main_env "if cond ; hello world"
        = Except.error (TauschError.Parser
            "Expected variable name inside of 'if'-branch of if-statement.") := by
  exact ⟨rfl, rfl⟩

/-- C6 (counterexample): a variable whose name is the reserved word `if`
is present in the environment, yet evaluating it does not return its
value — the name tokenizes to `IfStart`, conditional parsing is entered
and fails on the empty remainder. -/
theorem c6_reserved_name_counterexample :
    if_env "if" = some (VariableValue.Str "42")
    ∧ eval if_env "if"
        = Except.error (TauschError.Parser "Expected variable name after 'if'!") := by
  exact ⟨rfl, rfl⟩

/-- C6 (amended): for every variable name `k` that is a single scanner
word and not one of the reserved spellings `if`, `;`, `:`, `!`, if the
environment binds `k` to `v` then `evaluate(env, k)` returns `Ok(v)`. -/
theorem c6_bare_variable_lookup (env : Env) (k : String) (v : VariableValue)
    (hk : Word k) (h1 : k ≠ "if") (h2 : k ≠ ";") (h3 : k ≠ ":") (h4 : k ≠ "!")
    (henv : env k = some v) : eval env k = Except.ok v := by
  have hmk : String.mk k.data = k := rfl
  have htok : tokenize k = Except.ok [run_token k.data] :=
    tokenize_go_run_end k.data hk.1 hk.2
  have hvar : run_token k.data = ⟨TokenType.Variable, k⟩ := by
    rw [run_token_not_reserved k.data, hmk]
    intro tok htok'
    rw [hmk]
    simp only [reserved_tokens, List.mem_cons, List.not_mem_nil, or_false] at htok'
    rcases htok' with rfl | rfl | rfl | rfl
    · exact fun hh => h1 hh.symm
    · exact fun hh => h2 hh.symm
    · exact fun hh => h3 hh.symm
    · exact fun hh => h4 hh.symm
  rw [eval, htok, hvar]
  simp [henv]

theorem c6_bare_variable_lookup_witness :
    eval main_env "hello" = Except.ok (VariableValue.Str "42") :=
  c6_bare_variable_lookup main_env "hello" (VariableValue.Str "42")
    (by decide) (by decide) (by decide) (by decide) (by decide) rfl

/-- The allowed-token character class spelled out: alphanumeric,
underscore, or one of the characters occurring in the reserved
spellings `if`, `;`, `:`, `!`. -/
theorem is_allowed_token_chars (c : Char) :
    is_allowed_token c
      = (c.isAlphanum || c == '_' || c == 'i' || c == 'f'
          || c == ';' || c == ':' || c == '!') := by
  simp only [is_allowed_token, is_allowed_var_name, reserved_tokens,
    List.find?, List.contains, List.elem]
  cases h0 : c.isAlphanum <;>
    cases h1 : c == '_' <;>
      cases h2 : c == 'i' <;>
        cases h3 : c == 'f' <;>
          cases h4 : c == ';' <;>
            cases h5 : c == ':' <;>
              cases h6 : c == '!' <;>
                simp_all

/-- C7: `tokenize` succeeds exactly when every input character is
whitespace, alphanumeric, an underscore, or a character of a reserved
spelling (`i`, `f`, `;`, `:`, `!`); and whenever a character outside
this class is present, the whole call aborts with a `TokenizerError`
carrying the first offending character (no partial token sequence is
returned — the result is the bare error). -/
theorem c7_tokenizer_error_characterization (s : String) :
    ((∃ toks, tokenize s = Except.ok toks)
      ↔ ∀ ch ∈ s.data, ch.isWhitespace = true ∨ ch.isAlphanum = true ∨ ch = '_'
          ∨ ch = 'i' ∨ ch = 'f' ∨ ch = ';' ∨ ch = ':' ∨ ch = '!')
    ∧ ∀ ch, s.data.find? (fun d => !(is_allowed_token d || d.isWhitespace)) = some ch →
        tokenize s = Except.error
          (TauschError.Tokenizer ("Unknown token: '" ++ ch.toString ++ "'")) := by
  have hclass : ∀ ch : Char,
      (is_allowed_token ch = true ∨ ch.isWhitespace = true)
        ↔ (ch.isWhitespace = true ∨ ch.isAlphanum = true ∨ ch = '_'
            ∨ ch = 'i' ∨ ch = 'f' ∨ ch = ';' ∨ ch = ':' ∨ ch = '!') := by
    intro ch
    rw [is_allowed_token_chars]
    simp only [Bool.or_eq_true, beq_iff_eq]
    tauto
  constructor
  · constructor
    · rintro ⟨toks, htoks⟩ ch hch
      rw [← hclass ch]
      by_contra hbad
      push_neg at hbad
      have hpred : (fun d => !(is_allowed_token d || d.isWhitespace)) ch = true := by
        simp only [Bool.not_eq_true', Bool.or_eq_false_iff]
        exact ⟨Bool.eq_false_iff.mpr hbad.1, Bool.eq_false_iff.mpr hbad.2⟩
      have hsome : (s.data.find? (fun d => !(is_allowed_token d || d.isWhitespace))).isSome :=
        List.find?_isSome.mpr ⟨ch, hch, hpred⟩
      obtain ⟨c', hc'⟩ := Option.isSome_iff_exists.mp hsome
      have := tokenize_go_error_of_bad s.data none c' hc'
      rw [tokenize] at htoks
      rw [this] at htoks
      exact Except.noConfusion htoks
    · intro hgood
      refine tokenize_go_ok_of_good s.data none ?_
      intro ch hch
      exact (hclass ch).mpr (hgood ch hch)
  · intro ch hch
    exact tokenize_go_error_of_bad s.data none ch hch

theorem c7_tokenizer_error_characterization_witness :
    tokenize "a+b"
      = Except.error (TauschError.Tokenizer "Unknown token: '+'") := by
  have h := (c7_tokenizer_error_characterization "a+b").2 '+' (by rfl)
  simpa using h

/-- C8: reserved words are recognized only as exact maximal runs.  A
whole-input maximal run of allowed characters becomes exactly one
token; it is the reserved table's entry precisely when the run's text
equals that entry's spelling, and a `Variable` token carrying the run's
text otherwise — in particular `tokenize "ifx"` yields the single token
`Variable "ifx"`, not `IfStart` followed by a variable. -/
theorem c8_reserved_words_maximal_runs (w : String) (hw : Word w) :
    tokenize w = Except.ok [run_token w.data]
    ∧ (∀ tok, reserved_tokens.find? (fun t => t.label == w) = some tok
        → run_token w.data = tok ∧ tok.label = w)
    ∧ (reserved_tokens.find? (fun t => t.label == w) = none
        → run_token w.data = ⟨TokenType.Variable, w⟩)
    ∧ tokenize "ifx" = Except.ok [⟨TokenType.Variable, "ifx"⟩] := by
  have hmk : String.mk w.data = w := rfl
  refine ⟨tokenize_go_run_end w.data hw.1 hw.2, ?_, ?_, rfl⟩
  · intro tok hfind
    have hlab : tok.label = w := by
      have := List.find?_some hfind
      simpa using eq_of_beq this
    refine ⟨?_, hlab⟩
    unfold run_token
    rw [hmk, hfind]
  · intro hfind
    unfold run_token
    rw [hmk, hfind]

theorem c8_reserved_words_maximal_runs_witness :
    tokenize "ifx" = Except.ok [⟨TokenType.Variable, "ifx"⟩] :=
  (c8_reserved_words_maximal_runs "ifx" (by decide)).2.2.2

/-- C9: on every input on which `tokenize` succeeds, every returned
token of kind `Variable` has a non-empty label. -/
theorem c9_variable_labels_nonempty (s : String) (toks : List Token)
    (h : tokenize s = Except.ok toks) :
    ∀ t ∈ toks, t.typ = TokenType.Variable → t.label ≠ "" := by
  intro t ht _
  exact tokenize_go_label_ne s.data none (fun acc hacc => by cases hacc) toks h t ht

theorem c9_variable_labels_nonempty_witness :
    (Token.mk TokenType.Variable "hello").label ≠ "" :=
  c9_variable_labels_nonempty "hello" [⟨TokenType.Variable, "hello"⟩] rfl
    ⟨TokenType.Variable, "hello"⟩ (by simp) rfl
